import Mathlib

/-!
Shallow embedding of the traffic-map frontend (static/map.js).

JS numbers are idealized: finite doubles become exact rationals, with
separate NaN and signed-infinity values.  JSON values (the shapes a fetch
can deliver) are an inductive type.  Each definition below mirrors one
function of the source file; builtin coercions (Number, truthiness,
property access) are modelled explicitly.
-/

/-- JS double values: finite doubles as exact rationals, plus NaN and the
two infinities. -/
inductive JsNum where
  | fin (q : ℚ)
  | nan
  | inf
  | neginf
deriving DecidableEq

/-- Builtin Number.isFinite on an actual number (no coercion). -/
def JsNum.isFinite : JsNum → Bool
  | .fin _ => true
  | _ => false

/-- JS numeric addition. -/
def jsNumAdd : JsNum → JsNum → JsNum
  | .nan, _ => .nan
  | _, .nan => .nan
  | .fin a, .fin b => .fin (a + b)
  | .inf, .neginf => .nan
  | .neginf, .inf => .nan
  | .inf, _ => .inf
  | _, .inf => .inf
  | .neginf, _ => .neginf
  | _, .neginf => .neginf

/-- JS numeric subtraction. -/
def jsNumSub : JsNum → JsNum → JsNum
  | .nan, _ => .nan
  | _, .nan => .nan
  | .fin a, .fin b => .fin (a - b)
  | .inf, .inf => .nan
  | .neginf, .neginf => .nan
  | .inf, _ => .inf
  | _, .inf => .neginf
  | .neginf, _ => .neginf
  | _, .neginf => .inf

/-- JS numeric division.  Signed zero is not modelled: a finite numerator
over literal 0 takes the sign of the numerator, 0/0 is NaN. -/
def jsNumDiv : JsNum → JsNum → JsNum
  | .nan, _ => .nan
  | _, .nan => .nan
  | .fin a, .fin b =>
      if b = 0 then (if a = 0 then .nan else if 0 < a then .inf else .neginf)
      else .fin (a / b)
  | .fin _, .inf => .fin 0
  | .fin _, .neginf => .fin 0
  | .inf, .fin b => if b < 0 then .neginf else .inf
  | .neginf, .fin b => if b < 0 then .inf else .neginf
  | .inf, _ => .nan
  | .neginf, _ => .nan

/-- JS strict less-than on numbers; false whenever NaN is involved. -/
def jsNumLt : JsNum → JsNum → Bool
  | .nan, _ => false
  | _, .nan => false
  | .fin a, .fin b => a < b
  | .neginf, .neginf => false
  | .neginf, _ => true
  | _, .neginf => false
  | .inf, _ => false
  | .fin _, .inf => true

/-- JS less-or-equal on numbers; false whenever NaN is involved. -/
def jsNumLe : JsNum → JsNum → Bool
  | .nan, _ => false
  | _, .nan => false
  | a, b => !(jsNumLt b a)

/-- Builtin Math.min of two numbers (NaN propagates). -/
def jsMin (a b : JsNum) : JsNum :=
  if a = .nan ∨ b = .nan then .nan else if jsNumLt a b then a else b

/-- Builtin Math.max of two numbers (NaN propagates). -/
def jsMax (a b : JsNum) : JsNum :=
  if a = .nan ∨ b = .nan then .nan else if jsNumLt a b then b else a

/-- Builtin Math.floor on a number. -/
def jsNumFloor : JsNum → JsNum
  | .fin q => .fin ⌊q⌋
  | x => x

/-- JSON-like runtime values: everything a parsed fetch response, a DOM
value or an intermediate expression of the script can be. -/
inductive JsVal where
  | null
  | undefined
  | bool (b : Bool)
  | num (x : JsNum)
  | str (s : String)
  | arr (elems : List JsVal)
  | obj (fields : List (String × JsVal))

/-- JS truthiness. -/
def truthy : JsVal → Bool
  | .null => false
  | .undefined => false
  | .bool b => b
  | .num (.fin q) => decide (q ≠ 0)
  | .num .nan => false
  | .num _ => true
  | .str s => decide (s ≠ "")
  | .arr _ => true
  | .obj _ => true

/-- Property access on a value known not to be null or undefined: object
fields are looked up, anything else yields undefined. -/
def objGet (v : JsVal) (k : String) : JsVal :=
  match v with
  | .obj fields =>
      match fields.find? (fun p => p.fst == k) with
      | some p => p.snd
      | none => .undefined
  | _ => .undefined

/-- Access of the length member: arrays and strings report their length,
objects are looked up, other values yield undefined. -/
def jsLength (v : JsVal) : JsVal :=
  match v with
  | .arr xs => .num (.fin xs.length)
  | .str s => .num (.fin s.length)
  | _ => objGet v "length"

/-- JS logical-or of two values: the first operand when truthy, else the
second. -/
def jsOr (a b : JsVal) : JsVal :=
  if truthy a then a else b

/-- JS logical-and of two values: the second operand when the first is
truthy, else the first. -/
def jsAnd (a b : JsVal) : JsVal :=
  if truthy a then b else a

/-- Strict equality of a value against a string literal. -/
def strictEqStr (v : JsVal) (s : String) : Bool :=
  match v with
  | .str t => t = s
  | _ => false

/-- Builtin Array.isArray. -/
def isArrayV : JsVal → Bool
  | .arr _ => true
  | _ => false

/-- Test for an actual finite number, the shape Number.isFinite accepts. -/
def isFiniteNumV : JsVal → Bool
  | .num (.fin _) => true
  | _ => false

/-- Numeric value of a digit list, most significant digit first. -/
def digitsVal (ds : List Char) : ℕ :=
  ds.foldl (fun acc c => 10 * acc + (c.toNat - '0'.toNat)) 0

/-- Optional exponent tail of a numeric string: empty means exponent 0, an
e or E followed by an optionally signed digit run gives that exponent, and
anything else fails. -/
def expPart : List Char → Option ℤ
  | [] => some 0
  | c :: rest =>
    if c = 'e' ∨ c = 'E' then
      match rest with
      | '+' :: ds =>
          if ds ≠ [] ∧ ds.all (·.isDigit) then some (digitsVal ds) else none
      | '-' :: ds =>
          if ds ≠ [] ∧ ds.all (·.isDigit) then some (-(digitsVal ds : ℤ)) else none
      | ds =>
          if ds ≠ [] ∧ ds.all (·.isDigit) then some (digitsVal ds) else none
    else none

/-- Unsigned decimal numeral with optional fraction and exponent.  Hex,
octal and binary forms of the JS grammar are not modelled; no stated
property depends on them. -/
def parseUnsigned (cs : List Char) : Option ℚ :=
  let intDs := cs.takeWhile (·.isDigit)
  let r1 := cs.drop intDs.length
  match r1 with
  | '.' :: r2 =>
      let fracDs := r2.takeWhile (·.isDigit)
      let r3 := r2.drop fracDs.length
      if intDs = [] ∧ fracDs = [] then none
      else (expPart r3).map (fun e =>
        ((digitsVal intDs : ℚ) + (digitsVal fracDs : ℚ) / (10 : ℚ) ^ fracDs.length)
          * (10 : ℚ) ^ e)
  | _ =>
      if intDs = [] then none
      else (expPart r1).map (fun e => (digitsVal intDs : ℚ) * (10 : ℚ) ^ e)

/-- Builtin string-to-number coercion: trimmed, empty gives 0, an optional
sign before Infinity or a decimal numeral, anything else NaN. -/
def parseNumStr (s : String) : JsNum :=
  let cs := s.trim.toList
  match cs with
  | [] => .fin 0
  | '+' :: rest =>
      if rest = "Infinity".toList then .inf
      else match parseUnsigned rest with
        | some q => .fin q
        | none => .nan
  | '-' :: rest =>
      if rest = "Infinity".toList then .neginf
      else match parseUnsigned rest with
        | some q => .fin (-q)
        | none => .nan
  | _ =>
      if cs = "Infinity".toList then .inf
      else match parseUnsigned cs with
        | some q => .fin q
        | none => .nan

/-- Builtin Number coercion.  The ToPrimitive detour for nonempty arrays
and objects (join to a string, then parse) is approximated by NaN; no
stated property depends on those shapes. -/
def toNumber : JsVal → JsNum
  | .num x => x
  | .null => .fin 0
  | .undefined => .nan
  | .bool b => .fin (if b then 1 else 0)
  | .str s => parseNumStr s
  | .arr [] => .fin 0
  | .arr _ => .nan
  | .obj _ => .nan

/-- Builtin toFixed with two digits on a finite number: sign taken from
the input, magnitude rounded to the closer hundredth with ties away from
zero, rendered with exactly two fraction digits. -/
def toFixed2 (q : ℚ) : String :=
  let sgn := if q < 0 then "-" else ""
  let a : ℕ := (⌊|q| * 100 + 1 / 2⌋).toNat
  let ip := a / 100
  let fp := a % 100
  sgn ++ toString ip ++ "." ++ (if fp < 10 then "0" ++ toString fp else toString fp)

/- ===== Time Codec (map.js lines 10-19) ===== -/

/-- Embedding of toEpochSeconds.  Date parsing of non-number inputs is
environment defined in JS, so the getTime result of new Date(value) is a
parameter; the claims quantify over it. -/
def toEpochSeconds (dateParse : JsVal → JsNum) (value : JsVal) : JsNum :=
  match value with
  | .num x =>
      if jsNumLt x (.fin 10000000000) then x
      else jsNumFloor (jsNumDiv x (.fin 1000))
  | v =>
      let t := dateParse v
      if t.isFinite = false then .nan
      else jsNumFloor (jsNumDiv t (.fin 1000))

/- ===== FeatureCollection normalization (map.js lines 42-47) ===== -/

/-- Condition of the normalizer: fc and fc.type === FeatureCollection and
Array.isArray of fc.features. -/
def isValidFC (fc : JsVal) : Bool :=
  truthy fc && strictEqStr (objGet fc "type") "FeatureCollection"
    && isArrayV (objGet fc "features")

/-- Literal empty FeatureCollection the normalizer falls back to. -/
def emptyFC : JsVal :=
  .obj [("type", .str "FeatureCollection"), ("features", .arr [])]

/-- Embedding of normalizeFeatureCollection. -/
def normalizeFeatureCollection (fc : JsVal) : JsVal :=
  if isValidFC fc then fc else emptyFC

/-- Features list of a value whose features member is an array. -/
def fcFeatures (v : JsVal) : List JsVal :=
  match objGet v "features" with
  | .arr xs => xs
  | _ => []

/- ===== Geometry Scanner (map.js lines 108-118) ===== -/

/-- Index access on a value: array elements, undefined past the end or on
non-arrays.  Character access into strings is approximated by undefined;
no stated property indexes a string. -/
def jsIndex (v : JsVal) (i : ℕ) : JsVal :=
  match v with
  | .arr xs => xs.getD i .undefined
  | _ => .undefined

/-- Sum of two values along the numeric path of the JS plus operator:
both operands coerced with Number and added.  The string-concatenation
branch (an operand whose primitive form is a string) is approximated by
the same numeric path; no stated property exercises it. -/
def jsAddAsNum (a b : JsVal) : JsNum :=
  jsNumAdd (toNumber a) (toNumber b)

/-- Embedding of getLineMiddlePoint: null unless the input is an array of
length at least two, else the pairwise average of the first and last
entries. -/
def getLineMiddlePoint (coords : JsVal) : Option (JsNum × JsNum) :=
  match coords with
  | .arr xs =>
      if xs.length < 2 then none
      else
        let first := xs.headD .undefined
        let lastV := xs.getLastD .undefined
        some (jsNumDiv (jsAddAsNum (jsIndex first 0) (jsIndex lastV 0)) (.fin 2),
              jsNumDiv (jsAddAsNum (jsIndex first 1) (jsIndex lastV 1)) (.fin 2))
  | _ => none

/- ===== Value Encoder (map.js lines 157-172, 286-301) ===== -/

/-- Ratio computation shared by getPeakPoint and trafficLayer.getLineColor:
zero unless the value is finite and max exceeds min, then the normalized
offset, finally clamped through Math.max 0 of Math.min 1. -/
def ratioOf (value minV maxV : JsNum) : JsNum :=
  let r :=
    if value.isFinite && jsNumLt minV maxV then
      jsNumDiv (jsNumSub value minV) (jsNumSub maxV minV)
    else .fin 0
  jsMax (.fin 0) (jsMin (.fin 1) r)

/-- Four-stop color ramp of the peak marker (map.js lines 163-172). -/
def colorForMarker (r : JsNum) : List ℕ :=
  if jsNumLt r (.fin 0.33) then [46, 127, 255, 255]
  else if jsNumLt r (.fin 0.66) then [39, 209, 124, 255]
  else if jsNumLt r (.fin 0.9) then [255, 212, 77, 255]
  else [255, 59, 59, 255]

/-- Four-stop color ramp of the traffic line layer (map.js lines 297-300). -/
def colorForLine (r : JsNum) : List ℕ :=
  if jsNumLt r (.fin 0.33) then [46, 127, 255, 210]
  else if jsNumLt r (.fin 0.66) then [39, 209, 124, 210]
  else if jsNumLt r (.fin 0.9) then [255, 212, 77, 210]
  else [255, 59, 59, 220]

/-- Marker size (map.js lines 175-178): 14 plus six times the square root
of the vehicle count (floored at 0), clamped to the band 22 to 56.  A NaN
vehicle count gives a NaN size, modelled as none. -/
noncomputable def markerSize : JsNum → Option ℝ
  | .fin q => some (max 22 (min 56 (14 + Real.sqrt (max (q : ℝ) 0) * 6)))
  | .inf => some 56
  | .neginf => some 22
  | .nan => none

/- ===== Frame Builder: peak (map.js lines 129-187) ===== -/

/-- Value filter of the peak scan loop: skips falsy features, features
with falsy properties, and values whose Number coercion is not finite. -/
def featValue (f : JsVal) : Option ℚ :=
  if truthy f && truthy (objGet f "properties") then
    match toNumber (objGet (objGet f "properties") "value") with
    | .fin q => some q
    | _ => none
  else none

/-- One iteration of the peak scan loop: a finite value strictly above the
running best replaces it. -/
def peakStep (best : Option (JsVal × ℚ)) (f : JsVal) : Option (JsVal × ℚ) :=
  match featValue f with
  | none => best
  | some q =>
      match best with
      | none => some (f, q)
      | some (bf, bv) => if bv < q then some (f, q) else some (bf, bv)

/-- Peak scan over the features list.  The empty accumulator stands for
the initial bestFeature null with bestValue minus infinity. -/
def peakScan (feats : List JsVal) : Option (JsVal × ℚ) :=
  feats.foldl peakStep none

/-- Effective minimum used by getPeakPoint: stats.min when stats is truthy
and its min member is a finite number, else 0. -/
def statsMinQ (stats : JsVal) : ℚ :=
  if truthy stats && isFiniteNumV (objGet stats "min") then
    match objGet stats "min" with
    | .num (.fin q) => q
    | _ => 0
  else 0

/-- Effective maximum used by getPeakPoint: stats.max when stats is truthy
and its max member is a finite number, else 1. -/
def statsMaxQ (stats : JsVal) : ℚ :=
  if truthy stats && isFiniteNumV (objGet stats "max") then
    match objGet stats "max" with
    | .num (.fin q) => q
    | _ => 1
  else 1

/-- Marker descriptor built by getPeakPoint. -/
structure Peak where
  position : JsNum × JsNum
  color : List ℕ
  size : Option ℝ
  icon : String
  value : ℚ

/-- Tail of getPeakPoint after the scan loop (map.js lines 146-186): null
unless the winning feature has a truthy geometry of type LineString and a
midpoint; otherwise the marker descriptor with the defaulted stats, ratio,
color and size. -/
noncomputable def peakFromScan (stats : JsVal) : Option (JsVal × ℚ) → Option Peak
  | none => none
  | some (bf, bv) =>
      if !truthy (objGet bf "geometry")
          || !strictEqStr (objGet (objGet bf "geometry") "type") "LineString" then
        none
      else
        match getLineMiddlePoint (objGet (objGet bf "geometry") "coordinates") with
        | none => none
        | some middle =>
            let minV := statsMinQ stats
            let maxV := statsMaxQ stats
            let r := ratioOf (.fin bv) (.fin minV) (.fin maxV)
            let veh :=
              toNumber (jsOr (objGet (objGet bf "properties") "vehicles")
                (.num (.fin 0)))
            some ⟨middle, colorForMarker r, markerSize veh, "marker", bv⟩

/-- Embedding of getPeakPoint (map.js lines 129-187), factored as the scan
loop followed by peakFromScan.  A truthy non-array features member with a
truthy length would make the for-of loop raise in JS; that shape, excluded
by normalization upstream, is mapped to none here (a string features value
yields null in JS as well, since its characters carry no properties). -/
noncomputable def getPeakPoint (fc stats : JsVal) : Option Peak :=
  if !truthy fc || !truthy (objGet fc "features")
      || !truthy (jsLength (objGet fc "features")) then none
  else
    match objGet fc "features" with
    | .arr feats => peakFromScan stats (peakScan feats)
    | _ => none

/- ===== Frame Builder: labels (map.js lines 194-216) ===== -/

/-- Runtime exceptions the refresh path can raise. -/
inductive JsError where
  | typeError
deriving DecidableEq

/-- Label descriptor built by buildValuesLabels. -/
structure LabelD where
  position : JsNum × JsNum
  text : String
deriving DecidableEq

/-- One iteration of the label loop.  Reading geometry off a null or
undefined feature raises; otherwise non-line features and features without
a midpoint are skipped, and the text is the value to two decimals when its
Number coercion is finite, else empty. -/
def labelOf (f : JsVal) : Except JsError (Option LabelD) :=
  match f with
  | .null => .error .typeError
  | .undefined => .error .typeError
  | _ =>
      if !truthy (objGet f "geometry")
          || !strictEqStr (objGet (objGet f "geometry") "type") "LineString" then
        .ok none
      else
        match getLineMiddlePoint (objGet (objGet f "geometry") "coordinates") with
        | none => .ok none
        | some middle =>
            let v := toNumber (jsAnd (objGet f "properties")
              (objGet (objGet f "properties") "value"))
            .ok (some ⟨middle, match v with | .fin q => toFixed2 q | _ => ""⟩)

/-- Label loop over the features list, stopping at the first raised
exception. -/
def labelsOfList : List JsVal → Except JsError (List LabelD)
  | [] => .ok []
  | f :: rest =>
      match labelOf f with
      | .error e => .error e
      | .ok o =>
          match labelsOfList rest with
          | .error e => .error e
          | .ok ls => .ok (match o with | some l => l :: ls | none => ls)

/-- Embedding of buildValuesLabels: empty for a falsy collection or falsy
features member, else the label loop over the features array. -/
def buildValuesLabels (fc : JsVal) : Except JsError (List LabelD) :=
  if !truthy fc || !truthy (objGet fc "features") then .ok []
  else
    match objGet fc "features" with
    | .arr xs => labelsOfList xs
    | _ => .ok []

/- ===== Timeline Controller (map.js lines 449-466, 657-708) ===== -/

/-- Finite numeric content of a value, zero as a default; only read behind
an isFiniteNumV guard. -/
def finValD (v : JsVal) : ℚ :=
  match v with
  | .num (.fin q) => q
  | _ => 0

/-- Embedding of getSliderEpoch over the slider and time-range state: null
unless both bounds are finite numbers, else the rounded interpolation of
the scrub fraction into the epoch range. -/
def getSliderEpoch (tMin tMax : JsVal) (sliderValue sliderMax : ℚ) : Option ℤ :=
  if isFiniteNumV tMin && isFiniteNumV tMax then
    some ⌊finValD tMin + (sliderValue / sliderMax) * (finValD tMax - finValD tMin) + 1 / 2⌋
  else none

/-- Embedding of getWindowFromEpoch: the centered window of the given
minute radius. -/
def getWindowFromEpoch (centerEpoch minutesRange : ℤ) : ℤ × ℤ :=
  (centerEpoch - minutesRange * 60, centerEpoch + minutesRange * 60)

/-- Modelled from the spec: the scrub slider element lives in the page
HTML, which is not among the sources here.  Per the spec it is an
integer-valued range input bounded by 0 and its max, so an assigned value
is clamped into that band (the HTML value sanitization of a range input). -/
def setSliderValue (sliderMax v : ℤ) : ℤ :=
  max 0 (min sliderMax v)

/-- Prev button step (map.js lines 657-664): back 20, floored at 0, then
assigned to the slider. -/
def btnPrevStep (sliderMax p : ℤ) : ℤ :=
  setSliderValue sliderMax (max 0 (p - 20))

/-- Next button step (map.js lines 666-674): forward 20, capped at max,
then assigned to the slider. -/
def btnNextStep (sliderMax p : ℤ) : ℤ :=
  setSliderValue sliderMax (min sliderMax (p + 20))

/-- Playback tick (map.js lines 695-708): wrap to 0 once the position has
reached max, else advance by 2, then assign to the slider. -/
def playTickStep (sliderMax p : ℤ) : ℤ :=
  setSliderValue sliderMax (if sliderMax ≤ p then 0 else p + 2)

/- ===== Frame Loader (map.js lines 496-542) ===== -/

/-- Inputs of one refresh, read from the DOM and the module state. -/
structure TimelineEnv where
  chkTraffic : Bool
  chkValues : Bool
  sliderValue : ℚ
  sliderMax : ℚ
  timeMin : JsVal
  timeMax : JsVal
  vehClass : String
  metric : String

/-- Render-layer and legend state a refresh writes. -/
structure RenderState where
  currentStats : JsVal
  trafficData : JsVal
  peakData : List Peak
  labelData : List LabelD
  legendMin : String
  legendMax : String

/-- Query recorded when the refresh issues its fetch. -/
structure FetchCall where
  fr : ℤ
  toEpoch : ℤ
  vehClass : String
  metric : String
deriving DecidableEq

/-- Literal default stats object of the refresh. -/
def defaultStatsObj : JsVal :=
  .obj [("min", .num (.fin 0)), ("max", .num (.fin 1))]

/-- Embedding of loadTrafficForCurrentSlider given the already-resolved
response of its fetch.  The result carries the new render state and the
issued query, none when the refresh returned before fetching; an error
models an uncaught TypeError.  Reading stats off a null or undefined
response raises, which in JS happens right after the traffic data was
normalized. -/
noncomputable def loadTrafficForCurrentSlider (env : TimelineEnv) (response : JsVal)
    (st : RenderState) : Except JsError (RenderState × Option FetchCall) :=
  if env.chkTraffic = false then .ok (st, none)
  else
    match getSliderEpoch env.timeMin env.timeMax env.sliderValue env.sliderMax with
    | none => .ok (st, none)
    | some epoch =>
        let w := getWindowFromEpoch epoch 5
        let call : FetchCall := ⟨w.1, w.2, env.vehClass, env.metric⟩
        let fc := normalizeFeatureCollection response
        match response with
        | .null => .error .typeError
        | .undefined => .error .typeError
        | _ =>
            let cs := jsOr (objGet response "stats") defaultStatsObj
            let lmin :=
              match objGet cs "min" with
              | .num (.fin q) => toFixed2 q
              | _ => "min"
            let lmax :=
              match objGet cs "max" with
              | .num (.fin q) => toFixed2 q
              | _ => "max"
            let peak := getPeakPoint fc cs
            let peakList := match peak with | some p => [p] | none => []
            if env.chkValues then
              match buildValuesLabels fc with
              | .error e => .error e
              | .ok labels => .ok (⟨cs, fc, peakList, labels, lmin, lmax⟩, some call)
            else .ok (⟨cs, fc, peakList, [], lmin, lmax⟩, some call)

/- ===== Derived forms and concrete inputs used by the statements ===== -/

/-- Stats object with both members forced to the finite defaults the peak
builder falls back to. -/
def statsDefaulted (stats : JsVal) : JsVal :=
  .obj [("min", .num (.fin (statsMinQ stats))), ("max", .num (.fin (statsMaxQ stats)))]

/-- FeatureCollection literal around a features list. -/
def mkFC (feats : List JsVal) : JsVal :=
  .obj [("type", .str "FeatureCollection"), ("features", .arr feats)]

/-- Coordinate pair as a JSON array of two finite numbers. -/
def pairVal (p : ℚ × ℚ) : JsVal :=
  .arr [.num (.fin p.1), .num (.fin p.2)]

/-- Line feature literal with a value property and coordinates. -/
def lineFeat (v : ℚ) (coords : List (ℚ × ℚ)) : JsVal :=
  .obj [("properties", .obj [("value", .num (.fin v))]),
        ("geometry", .obj [("type", .str "LineString"),
                           ("coordinates", .arr (coords.map pairVal))])]

/-- Two line features valued 3 and 7, the worked example of the spec. -/
def fcPeakEx : JsVal :=
  mkFC [lineFeat 3 [(0, 1), (2, 3)], lineFeat 7 [(4, 0), (6, 2)]]

/-- Stats object with range 0 to 10. -/
def statsEx : JsVal :=
  .obj [("min", .num (.fin 0)), ("max", .num (.fin 10))]

/-- Render state with empty layers and placeholder legend labels. -/
def stEx : RenderState :=
  ⟨defaultStatsObj, emptyFC, [], [], "min", "max"⟩

/-- Refresh inputs with the traffic layer on, labels off, the slider at
its midpoint, and the epoch range 1000 to 2000. -/
def envEx : TimelineEnv :=
  ⟨true, false, 50, 100, .num (.fin 1000), .num (.fin 2000), "all", "count"⟩

/-- Refresh inputs whose time range never loaded: both bounds are null. -/
def envNoTime : TimelineEnv :=
  ⟨true, false, 50, 100, .null, .null, "all", "count"⟩

/-- Well-formed response with no features and stats 0 to 10. -/
def respEx : JsVal :=
  .obj [("type", .str "FeatureCollection"), ("features", .arr []),
        ("stats", statsEx)]

/-- Refresh outcome on the worked example: stats 0 to 10, empty features,
legend rendered to two decimals, window 1200 to 1800. -/
def rEx : RenderState × Option FetchCall :=
  (⟨statsEx, respEx, [], [], toFixed2 0, toFixed2 10⟩,
    some ⟨1200, 1800, "all", "count"⟩)

/- ===== Helper lemmas ===== -/

theorem jsNumLt_fin (a b : ℚ) : jsNumLt (.fin a) (.fin b) = decide (a < b) := rfl

theorem jsNumSub_fin (a b : ℚ) : jsNumSub (.fin a) (.fin b) = .fin (a - b) := rfl

theorem jsNumAdd_fin (a b : ℚ) : jsNumAdd (.fin a) (.fin b) = .fin (a + b) := rfl

theorem jsNumDiv_fin (a b : ℚ) (h : b ≠ 0) :
    jsNumDiv (.fin a) (.fin b) = .fin (a / b) := by
  simp [jsNumDiv, h]

theorem jsMin_fin (a b : ℚ) : jsMin (.fin a) (.fin b) = .fin (min a b) := by
  simp only [jsMin, jsNumLt_fin]
  split
  · simp_all
  · split
    · next h => simp [min_eq_left (le_of_lt (by simpa using h))]
    · next h => simp [min_eq_right (not_lt.mp (by simpa using h))]

theorem jsMax_fin (a b : ℚ) : jsMax (.fin a) (.fin b) = .fin (max a b) := by
  simp only [jsMax, jsNumLt_fin]
  split
  · simp_all
  · split
    · next h => simp [max_eq_right (le_of_lt (by simpa using h))]
    · next h => simp [max_eq_left (not_lt.mp (by simpa using h))]

theorem ratioOf_not_finite (v minV maxV : JsNum) (h : v.isFinite = false) :
    ratioOf v minV maxV = .fin 0 := by
  simp only [ratioOf, h, Bool.false_and]
  rw [if_neg Bool.false_ne_true, jsMin_fin, jsMax_fin]
  norm_num

theorem ratioOf_fin (q mn mx : ℚ) (h : mn < mx) :
    ratioOf (.fin q) (.fin mn) (.fin mx) = .fin (max 0 (min 1 ((q - mn) / (mx - mn)))) := by
  have hd : mx - mn ≠ 0 := by linarith
  simp only [ratioOf, JsNum.isFinite, jsNumLt_fin, decide_eq_true h, Bool.true_and, if_true,
    jsNumSub_fin, jsNumDiv_fin _ _ hd, jsMin_fin, jsMax_fin]

theorem ratioOf_no_range (v : JsNum) (mn mx : ℚ) (h : mx ≤ mn) :
    ratioOf v (.fin mn) (.fin mx) = .fin 0 := by
  have : jsNumLt (.fin mn) (.fin mx) = false := by
    simp [jsNumLt_fin, not_lt.mpr h]
  simp only [ratioOf, this, Bool.and_false]
  rw [if_neg Bool.false_ne_true, jsMin_fin, jsMax_fin]
  norm_num

/- ===== C10 ===== -/

theorem isValidFC_emptyFC : isValidFC emptyFC = true := by
  simp [isValidFC, emptyFC, truthy, objGet, strictEqStr, isArrayV, List.find?]

/-- Claim C10: normalizeFeatureCollection always yields a well-formed
FeatureCollection (an object with type FeatureCollection and an array
features member), returns well-formed inputs unchanged, and is idempotent. -/
theorem normalizeFeatureCollection_spec :
    ∀ v : JsVal,
      isValidFC (normalizeFeatureCollection v) = true
      ∧ (isValidFC v = true → normalizeFeatureCollection v = v)
      ∧ normalizeFeatureCollection (normalizeFeatureCollection v)
          = normalizeFeatureCollection v := by
  intro v
  by_cases h : isValidFC v
  · simp [normalizeFeatureCollection, h]
  · simp [normalizeFeatureCollection, h, isValidFC_emptyFC]

/-- Witness for C10 at the literal empty FeatureCollection. -/
theorem normalizeFeatureCollection_spec_witness :
    isValidFC emptyFC = true ∧ normalizeFeatureCollection emptyFC = emptyFC :=
  ⟨isValidFC_emptyFC, (normalizeFeatureCollection_spec emptyFC).2.1 isValidFC_emptyFC⟩

/- ===== C3 ===== -/

/-- Claim C3: both color encodings are non-interpolated four-stop step
functions over the fixed RGBA stops; thresholds are 0.33, 0.66 and 0.9
with the lower bound exclusive, so 0 is blue, 0.33 is green, 0.99 is red,
and the line variant pairs the same stop selection with alphas 210, 210,
210 and 220. -/
theorem colorStops_spec :
    ∀ r : JsNum,
      (colorForMarker r = [46, 127, 255, 255] ∨ colorForMarker r = [39, 209, 124, 255]
        ∨ colorForMarker r = [255, 212, 77, 255] ∨ colorForMarker r = [255, 59, 59, 255])
      ∧ (jsNumLt r (.fin 0.33) = true → colorForMarker r = [46, 127, 255, 255])
      ∧ (jsNumLt r (.fin 0.33) = false → jsNumLt r (.fin 0.66) = true →
          colorForMarker r = [39, 209, 124, 255])
      ∧ (jsNumLt r (.fin 0.66) = false → jsNumLt r (.fin 0.9) = true →
          colorForMarker r = [255, 212, 77, 255])
      ∧ (jsNumLt r (.fin 0.9) = false → colorForMarker r = [255, 59, 59, 255])
      ∧ ((colorForMarker r = [46, 127, 255, 255] ∧ colorForLine r = [46, 127, 255, 210])
        ∨ (colorForMarker r = [39, 209, 124, 255] ∧ colorForLine r = [39, 209, 124, 210])
        ∨ (colorForMarker r = [255, 212, 77, 255] ∧ colorForLine r = [255, 212, 77, 210])
        ∨ (colorForMarker r = [255, 59, 59, 255] ∧ colorForLine r = [255, 59, 59, 220]))
      ∧ colorForMarker (.fin 0) = [46, 127, 255, 255]
      ∧ colorForMarker (.fin 0.33) = [39, 209, 124, 255]
      ∧ colorForMarker (.fin 0.99) = [255, 59, 59, 255] := by
  have h033 : ∀ r : JsNum, jsNumLt r (.fin 0.9) = false → jsNumLt r (.fin 0.33) = false := by
    intro r h
    cases r with
    | fin q =>
        simp only [jsNumLt_fin, decide_eq_false_iff_not, not_lt] at h ⊢
        linarith
    | nan => rfl
    | inf => rfl
    | neginf => simp [jsNumLt] at h
  have h066 : ∀ r : JsNum, jsNumLt r (.fin 0.9) = false → jsNumLt r (.fin 0.66) = false := by
    intro r h
    cases r with
    | fin q =>
        simp only [jsNumLt_fin, decide_eq_false_iff_not, not_lt] at h ⊢
        linarith
    | nan => rfl
    | inf => rfl
    | neginf => simp [jsNumLt] at h
  intro r
  refine ⟨?_, ?_, ?_, ?_, ?_, ?_, ?_, ?_, ?_⟩
  · by_cases h1 : jsNumLt r (.fin 0.33) = true
    · simp [colorForMarker, h1]
    · by_cases h2 : jsNumLt r (.fin 0.66) = true
      · simp [colorForMarker, h1, h2]
      · by_cases h3 : jsNumLt r (.fin 0.9) = true
        · simp [colorForMarker, h1, h2, h3]
        · simp [colorForMarker, h1, h2, h3]
  · intro h1; simp [colorForMarker, h1]
  · intro h1 h2; simp [colorForMarker, h1, h2]
  · intro h2 h3
    have h1 : jsNumLt r (.fin 0.33) = false := by
      cases hq : jsNumLt r (.fin 0.33) with
      | false => rfl
      | true =>
          exfalso
          cases r with
          | fin q =>
              simp only [jsNumLt_fin, decide_eq_true_eq, decide_eq_false_iff_not, not_lt] at hq h2
              linarith
          | nan => simp [jsNumLt] at hq
          | inf => simp [jsNumLt] at hq
          | neginf => simp [jsNumLt] at h2
    simp [colorForMarker, h1, h2, h3]
  · intro h3
    simp [colorForMarker, h033 r h3, h066 r h3, h3]
  · by_cases h1 : jsNumLt r (.fin 0.33) = true
    · exact Or.inl ⟨by simp [colorForMarker, h1], by simp [colorForLine, h1]⟩
    · by_cases h2 : jsNumLt r (.fin 0.66) = true
      · exact Or.inr (Or.inl ⟨by simp [colorForMarker, h1, h2], by simp [colorForLine, h1, h2]⟩)
      · by_cases h3 : jsNumLt r (.fin 0.9) = true
        · exact Or.inr (Or.inr (Or.inl
            ⟨by simp [colorForMarker, h1, h2, h3], by simp [colorForLine, h1, h2, h3]⟩))
        · exact Or.inr (Or.inr (Or.inr
            ⟨by simp [colorForMarker, h1, h2, h3], by simp [colorForLine, h1, h2, h3]⟩))
  · have : jsNumLt (.fin 0) (.fin 0.33) = true := by
      rw [jsNumLt_fin]; norm_num
    simp [colorForMarker, this]
  · have ha : jsNumLt (.fin 0.33) (.fin 0.33) = false := by
      rw [jsNumLt_fin]; norm_num
    have hb : jsNumLt (.fin 0.33) (.fin 0.66) = true := by
      rw [jsNumLt_fin]; norm_num
    simp [colorForMarker, ha, hb]
  · have ha : jsNumLt (.fin 0.99) (.fin 0.33) = false := by
      rw [jsNumLt_fin]; norm_num
    have hb : jsNumLt (.fin 0.99) (.fin 0.66) = false := by
      rw [jsNumLt_fin]; norm_num
    have hc : jsNumLt (.fin 0.99) (.fin 0.9) = false := by
      rw [jsNumLt_fin]; norm_num
    simp [colorForMarker, ha, hb, hc]

/-- Witness for C3: the half ratio clears the blue stop and lands on
green. -/
theorem colorStops_spec_witness :
    (jsNumLt (.fin (1 / 2)) (.fin 0.33) = false ∧ jsNumLt (.fin (1 / 2)) (.fin 0.66) = true)
    ∧ colorForMarker (.fin (1 / 2)) = [39, 209, 124, 255] := by
  have ha : jsNumLt (.fin (1 / 2)) (.fin 0.33) = false := by
    rw [jsNumLt_fin]; norm_num
  have hb : jsNumLt (.fin (1 / 2)) (.fin 0.66) = true := by
    rw [jsNumLt_fin]; norm_num
  exact ⟨⟨ha, hb⟩, (colorStops_spec (.fin (1 / 2))).2.2.1 ha hb⟩

/- ===== C2 ===== -/

/-- Claim C2: with finite stats and max above min the encoded ratio is the
clamp of the normalized offset, monotone non-decreasing in the value and
always inside the unit band; with max at or below min, or a non-finite
value, the ratio is zero for every input; and the divisor of the guarded
branch is never zero. -/
theorem ratioOf_spec :
    (∀ (mn mx q1 q2 : ℚ), mn < mx → q1 ≤ q2 →
        ∃ r1 r2 : ℚ, ratioOf (.fin q1) (.fin mn) (.fin mx) = .fin r1
          ∧ ratioOf (.fin q2) (.fin mn) (.fin mx) = .fin r2 ∧ r1 ≤ r2)
    ∧ (∀ (mn mx : ℚ) (v : JsNum), mn < mx →
        ∃ r : ℚ, ratioOf v (.fin mn) (.fin mx) = .fin r ∧ 0 ≤ r ∧ r ≤ 1)
    ∧ (∀ (mn mx : ℚ) (v : JsNum), mx ≤ mn → ratioOf v (.fin mn) (.fin mx) = .fin 0)
    ∧ (∀ (minV maxV v : JsNum), v.isFinite = false → ratioOf v minV maxV = .fin 0)
    ∧ (∀ (mn mx : ℚ), mn < mx → jsNumSub (.fin mx) (.fin mn) ≠ .fin 0) := by
  refine ⟨?_, ?_, ?_, ?_, ?_⟩
  · intro mn mx q1 q2 hlt hle
    refine ⟨_, _, ratioOf_fin q1 mn mx hlt, ratioOf_fin q2 mn mx hlt, ?_⟩
    have hd : (0 : ℚ) < mx - mn := by linarith
    have hdiv : (q1 - mn) / (mx - mn) ≤ (q2 - mn) / (mx - mn) := by
      gcongr
    exact max_le_max le_rfl (min_le_min le_rfl hdiv)
  · intro mn mx v hlt
    cases hv : v.isFinite with
    | false =>
        exact ⟨0, ratioOf_not_finite v (.fin mn) (.fin mx) hv, le_rfl, by norm_num⟩
    | true =>
        cases v with
        | fin q =>
            refine ⟨_, ratioOf_fin q mn mx hlt, le_max_left 0 _, ?_⟩
            exact max_le (by norm_num) (min_le_left 1 _)
        | nan => simp [JsNum.isFinite] at hv
        | inf => simp [JsNum.isFinite] at hv
        | neginf => simp [JsNum.isFinite] at hv
  · intro mn mx v h
    exact ratioOf_no_range v mn mx h
  · intro minV maxV v h
    exact ratioOf_not_finite v minV maxV h
  · intro mn mx hlt
    rw [jsNumSub_fin]
    intro hc
    have : mx - mn = 0 := by injection hc
    linarith

/-- Witness for C2 at stats 0 to 1 and values one quarter and three
quarters. -/
theorem ratioOf_spec_witness :
    ((0 : ℚ) < 1 ∧ (1 / 4 : ℚ) ≤ 3 / 4)
    ∧ (∃ r1 r2 : ℚ, ratioOf (.fin (1 / 4)) (.fin 0) (.fin 1) = .fin r1
        ∧ ratioOf (.fin (3 / 4)) (.fin 0) (.fin 1) = .fin r2 ∧ r1 ≤ r2)
    ∧ ratioOf .nan (.fin 0) (.fin 1) = .fin 0 :=
  ⟨⟨by norm_num, by norm_num⟩,
    ratioOf_spec.1 0 1 (1 / 4) (3 / 4) (by norm_num) (by norm_num),
    ratioOf_spec.2.2.2.1 (.fin 0) (.fin 1) .nan rfl⟩

/- ===== C7 ===== -/

theorem jsNumLe_fin (a b : ℚ) : jsNumLe (.fin a) (.fin b) = decide (a ≤ b) := by
  show (!(jsNumLt (.fin b) (.fin a))) = decide (a ≤ b)
  rw [jsNumLt_fin]
  by_cases h : b < a
  · simp [h, not_le.mpr h]
  · simp [h, not_lt.mp h]

/-- Claim C7: toEpochSeconds returns a number below 1e10 unchanged,
floor-divides a number at or above 1e10 by 1000, and yields NaN for any
non-number input whose date parse has no finite timestamp; the date parse
of the environment is quantified over. -/
theorem toEpochSeconds_spec :
    (∀ (dateParse : JsVal → JsNum) (x : JsNum),
        jsNumLt x (.fin 10000000000) = true →
        toEpochSeconds dateParse (.num x) = x)
    ∧ (∀ (dateParse : JsVal → JsNum) (x : JsNum),
        jsNumLe (.fin 10000000000) x = true →
        toEpochSeconds dateParse (.num x) = jsNumFloor (jsNumDiv x (.fin 1000)))
    ∧ (∀ (dateParse : JsVal → JsNum) (s : String),
        (dateParse (.str s)).isFinite = false →
        toEpochSeconds dateParse (.str s) = .nan) := by
  refine ⟨?_, ?_, ?_⟩
  · intro dp x h
    simp [toEpochSeconds, h]
  · intro dp x h
    have hlt : jsNumLt x (.fin 10000000000) = false := by
      cases x with
      | fin q =>
          rw [jsNumLe_fin] at h
          rw [jsNumLt_fin]
          simp only [decide_eq_true_eq] at h
          simp [not_lt.mpr h]
      | nan => simp [jsNumLe] at h
      | inf => rfl
      | neginf => simp [jsNumLe, jsNumLt] at h
    simp [toEpochSeconds, hlt]
  · intro dp s h
    simp [toEpochSeconds, h]

/-- Witness for C7: 5 stays seconds, 20000000000 is treated as
milliseconds, and an unparsable string yields NaN. -/
theorem toEpochSeconds_spec_witness :
    (jsNumLt (.fin 5) (.fin 10000000000) = true
      ∧ toEpochSeconds (fun _ => .nan) (.num (.fin 5)) = .fin 5)
    ∧ (jsNumLe (.fin 10000000000) (.fin 20000000000) = true
      ∧ toEpochSeconds (fun _ => .nan) (.num (.fin 20000000000))
          = jsNumFloor (jsNumDiv (.fin 20000000000) (.fin 1000)))
    ∧ toEpochSeconds (fun _ => .nan) (.str "not a date") = .nan := by
  have h1 : jsNumLt (.fin 5) (.fin 10000000000) = true := by
    rw [jsNumLt_fin]; norm_num
  have h2 : jsNumLe (.fin 10000000000) (.fin 20000000000) = true := by
    rw [jsNumLe_fin]; norm_num
  exact ⟨⟨h1, toEpochSeconds_spec.1 (fun _ => .nan) (.fin 5) h1⟩,
    ⟨h2, toEpochSeconds_spec.2.1 (fun _ => .nan) (.fin 20000000000) h2⟩,
    toEpochSeconds_spec.2.2 (fun _ => .nan) "not a date" rfl⟩

/- ===== C8 ===== -/

/-- Claim C8: getLineMiddlePoint returns the arithmetic midpoint of only
the first and last coordinates of any sequence of two or more pairs, and
null for any input that is not an array of length at least two; on the
worked example with an interior vertex it returns the pair 5, 5. -/
theorem getLineMiddlePoint_spec :
    (∀ v : JsVal, (∀ xs, v = .arr xs → xs.length < 2) → getLineMiddlePoint v = none)
    ∧ (∀ (p q : ℚ × ℚ) (ps : List (ℚ × ℚ)),
        getLineMiddlePoint (.arr ((p :: (ps ++ [q])).map pairVal))
          = some (.fin ((p.1 + q.1) / 2), .fin ((p.2 + q.2) / 2)))
    ∧ getLineMiddlePoint (.arr ([(0, 0), (4, 2), (10, 10)].map pairVal))
        = some (.fin 5, .fin 5) := by
  have hmid : ∀ (p q : ℚ × ℚ) (ps : List (ℚ × ℚ)),
      getLineMiddlePoint (.arr ((p :: (ps ++ [q])).map pairVal))
        = some (.fin ((p.1 + q.1) / 2), .fin ((p.2 + q.2) / 2)) := by
    intro p q ps
    have hlen : ¬(((p :: (ps ++ [q])).map pairVal).length < 2) := by
      simp
    have hlast : ((p :: (ps ++ [q])).map pairVal).getLastD .undefined = pairVal q := by
      simp only [List.map_cons, List.map_append, List.map_cons, List.map_nil,
        List.getLastD_cons]
      exact List.getLastD_concat _ _ _
    have h0 : ∀ r : ℚ × ℚ, jsIndex (pairVal r) 0 = .num (.fin r.1) := fun r => rfl
    have h1 : ∀ r : ℚ × ℚ, jsIndex (pairVal r) 1 = .num (.fin r.2) := fun r => rfl
    have hdiv : ∀ a : ℚ, jsNumDiv (.fin a) (.fin 2) = .fin (a / 2) :=
      fun a => jsNumDiv_fin a 2 two_ne_zero
    simp only [getLineMiddlePoint, hlast]
    rw [if_neg hlen]
    simp only [List.map_cons, List.headD_cons, h0, h1, jsAddAsNum, toNumber,
      jsNumAdd_fin, hdiv]
  refine ⟨?_, hmid, ?_⟩
  · intro v hv
    cases v with
    | arr xs => simp [getLineMiddlePoint, hv xs rfl]
    | null => rfl
    | undefined => rfl
    | bool b => rfl
    | num x => rfl
    | str s => rfl
    | obj fields => rfl
  · have h := hmid (0, 0) (10, 10) [(4, 2)]
    norm_num at h
    convert h using 2

/-- Witness for C8: a string input is not an array, so the result is
null. -/
theorem getLineMiddlePoint_spec_witness :
    (∀ xs : List JsVal, JsVal.str "xy" = .arr xs → xs.length < 2)
    ∧ getLineMiddlePoint (.str "xy") = none :=
  ⟨fun _ h => JsVal.noConfusion h,
    getLineMiddlePoint_spec.1 (.str "xy") (fun _ h => JsVal.noConfusion h)⟩

/- ===== C9 ===== -/

/-- Claim C9: from any integer position inside the band 0 to max, the
prev step is back 20 floored at 0, the next step is forward 20 capped at
max, and the playback tick wraps to 0 once the position has reached max
and otherwise advances by 2 capped at max by the slider bound; every
transition lands back inside the band. -/
theorem scrubPosition_invariant :
    ∀ sliderMax p : ℤ, 0 ≤ sliderMax → 0 ≤ p → p ≤ sliderMax →
      (0 ≤ btnPrevStep sliderMax p ∧ btnPrevStep sliderMax p ≤ sliderMax
        ∧ btnPrevStep sliderMax p = max 0 (p - 20))
      ∧ (0 ≤ btnNextStep sliderMax p ∧ btnNextStep sliderMax p ≤ sliderMax
        ∧ btnNextStep sliderMax p = min sliderMax (p + 20))
      ∧ (0 ≤ playTickStep sliderMax p ∧ playTickStep sliderMax p ≤ sliderMax
        ∧ (sliderMax ≤ p → playTickStep sliderMax p = 0)
        ∧ (p < sliderMax → playTickStep sliderMax p = min sliderMax (p + 2))) := by
  intro sliderMax p hm h0 hp
  unfold btnPrevStep btnNextStep playTickStep setSliderValue
  refine ⟨⟨?_, ?_, ?_⟩, ⟨?_, ?_, ?_⟩, ?_, ?_, ?_, ?_⟩ <;> omega

/-- Witness for C9 at max 100 and position 99: the tick is capped at the
band and stays inside it. -/
theorem scrubPosition_invariant_witness :
    ((0 : ℤ) ≤ 100 ∧ (0 : ℤ) ≤ 99 ∧ (99 : ℤ) ≤ 100)
    ∧ 0 ≤ playTickStep 100 99 ∧ playTickStep 100 99 ≤ 100 :=
  ⟨⟨by norm_num, by norm_num, by norm_num⟩,
    (scrubPosition_invariant 100 99 (by norm_num) (by norm_num) (by norm_num)).2.2.1,
    (scrubPosition_invariant 100 99 (by norm_num) (by norm_num) (by norm_num)).2.2.2.1⟩

/- ===== C1: peak scan lemmas ===== -/

theorem peakStep_of_none (acc : Option (JsVal × ℚ)) {f : JsVal}
    (h : featValue f = none) : peakStep acc f = acc := by
  simp [peakStep, h]

theorem peakScan_filter :
    ∀ (feats : List JsVal) (acc : Option (JsVal × ℚ)),
      feats.foldl peakStep acc
        = (feats.filter (fun f => (featValue f).isSome)).foldl peakStep acc := by
  intro feats
  induction feats with
  | nil => intro acc; rfl
  | cons f rest ih =>
      intro acc
      by_cases h : (featValue f).isSome = true
      · rw [List.filter_cons]
        simp only [h, if_true, List.foldl_cons]
        exact ih (peakStep acc f)
      · have hb : (featValue f).isSome = false := by simpa using h
        have hnone : featValue f = none := Option.not_isSome_iff_eq_none.mp (by simpa using h)
        rw [List.filter_cons]
        simp only [hb]
        rw [if_neg Bool.false_ne_true, List.foldl_cons, peakStep_of_none acc hnone]
        exact ih acc

theorem peakScan_foldl_ub :
    ∀ (feats : List JsVal) (acc : Option (JsVal × ℚ)) (bf : JsVal) (bv : ℚ),
      feats.foldl peakStep acc = some (bf, bv) →
      (∀ g ∈ feats, ∀ w, featValue g = some w → w ≤ bv)
      ∧ (∀ f0 v0, acc = some (f0, v0) → v0 ≤ bv) := by
  intro feats
  induction feats with
  | nil =>
      intro acc bf bv h
      refine ⟨by simp, ?_⟩
      intro f0 v0 hacc
      rw [hacc] at h
      simp only [List.foldl_nil, Option.some.injEq, Prod.mk.injEq] at h
      exact h.2.le
  | cons g rest ih =>
      intro acc bf bv h
      rw [List.foldl_cons] at h
      have H := ih (peakStep acc g) bf bv h
      constructor
      · intro g' hg' w hw
        rcases List.mem_cons.mp hg' with rfl | hmem
        · cases hacc : acc with
          | none => exact H.2 g' w (by rw [hacc]; simp [peakStep, hw])
          | some pr =>
              obtain ⟨f0, v0⟩ := pr
              by_cases hlt : v0 < w
              · exact H.2 g' w (by rw [hacc]; simp [peakStep, hw, hlt])
              · exact le_trans (not_lt.mp hlt)
                  (H.2 f0 v0 (by rw [hacc]; simp [peakStep, hw, hlt]))
        · exact H.1 g' hmem w hw
      · intro f0 v0 hacc
        subst hacc
        cases hfv : featValue g with
        | none => exact H.2 f0 v0 (peakStep_of_none _ hfv)
        | some w =>
            by_cases hlt : v0 < w
            · exact le_trans hlt.le (H.2 g w (by simp [peakStep, hfv, hlt]))
            · exact H.2 f0 v0 (by simp [peakStep, hfv, hlt])

theorem peakScan_foldl_mem :
    ∀ (feats : List JsVal) (acc : Option (JsVal × ℚ)) (bf : JsVal) (bv : ℚ),
      feats.foldl peakStep acc = some (bf, bv) →
      acc = some (bf, bv)
      ∨ (featValue bf = some bv
          ∧ ∃ pre post, feats = pre ++ bf :: post
            ∧ (∀ g ∈ pre, ∀ w, featValue g = some w → w < bv)
            ∧ (∀ f0 v0, acc = some (f0, v0) → v0 < bv)) := by
  intro feats
  induction feats with
  | nil => intro acc bf bv h; exact Or.inl h
  | cons g rest ih =>
      intro acc bf bv h
      rw [List.foldl_cons] at h
      rcases ih (peakStep acc g) bf bv h with hacc1 | ⟨hfv, pre, post, hsplit, hpre, haccV⟩
      · cases hg : featValue g with
        | none =>
            left
            rw [← peakStep_of_none acc hg]
            exact hacc1
        | some w =>
            cases hfoo : acc with
            | none =>
                right
                rw [hfoo] at hacc1
                simp only [peakStep, hg, Option.some.injEq, Prod.mk.injEq] at hacc1
                obtain ⟨rfl, rfl⟩ := hacc1
                exact ⟨hg, [], rest, rfl, by simp, fun f0 v0 h' => Option.noConfusion h'⟩
            | some pr =>
                obtain ⟨f0, v0⟩ := pr
                by_cases hlt : v0 < w
                · right
                  rw [hfoo] at hacc1
                  simp only [peakStep, hg, hlt, if_true, Option.some.injEq,
                    Prod.mk.injEq] at hacc1
                  obtain ⟨rfl, rfl⟩ := hacc1
                  refine ⟨hg, [], rest, rfl, by simp, ?_⟩
                  intro f0' v0' h'
                  simp only [Option.some.injEq, Prod.mk.injEq] at h'
                  rw [← h'.2]
                  exact hlt
                · left
                  rw [hfoo] at hacc1
                  simp only [peakStep, hg, hlt, if_false] at hacc1
                  exact hacc1
      · right
        refine ⟨hfv, g :: pre, post, by rw [hsplit]; rfl, ?_, ?_⟩
        · intro g' hg' w hw
          rcases List.mem_cons.mp hg' with rfl | hmem
          · cases hfoo : acc with
            | none => exact haccV g' w (by rw [hfoo]; simp [peakStep, hw])
            | some pr =>
                obtain ⟨f0, v0⟩ := pr
                by_cases hlt : v0 < w
                · exact haccV g' w (by rw [hfoo]; simp [peakStep, hw, hlt])
                · exact lt_of_le_of_lt (not_lt.mp hlt)
                    (haccV f0 v0 (by rw [hfoo]; simp [peakStep, hw, hlt]))
          · exact hpre g' hmem w hw
        · intro f0 v0 hacc
          cases hg : featValue g with
          | none =>
              exact haccV f0 v0 (by rw [hacc]; exact peakStep_of_none _ hg)
          | some w =>
              by_cases hlt : v0 < w
              · exact lt_trans hlt (haccV g w (by rw [hacc]; simp [peakStep, hg, hlt]))
              · exact haccV f0 v0 (by rw [hacc]; simp [peakStep, hg, hlt])

/- ===== C1: getPeakPoint evaluation ===== -/

theorem mkFC_features (feats : List JsVal) :
    objGet (mkFC feats) "features" = .arr feats := by
  simp [mkFC, objGet, List.find?]

theorem truthy_len_nil : truthy (jsLength (.arr ([] : List JsVal))) = false := by
  simp [jsLength, truthy]

theorem truthy_len_cons (x : JsVal) (rest : List JsVal) :
    truthy (jsLength (.arr (x :: rest))) = true := by
  simp [jsLength, truthy]
  positivity

theorem getPeakPoint_mkFC_nil (stats : JsVal) : getPeakPoint (mkFC []) stats = none := by
  unfold getPeakPoint
  rw [mkFC_features]
  have hc : (!truthy (mkFC ([] : List JsVal)) || !truthy (JsVal.arr ([] : List JsVal))
      || !truthy (jsLength (JsVal.arr ([] : List JsVal)))) = true := by
    rw [truthy_len_nil]
    rfl
  rw [if_pos hc]

theorem getPeakPoint_mkFC_cons (x : JsVal) (rest : List JsVal) (stats : JsVal) :
    getPeakPoint (mkFC (x :: rest)) stats = peakFromScan stats (peakScan (x :: rest)) := by
  unfold getPeakPoint
  rw [mkFC_features]
  have hc : (!truthy (mkFC (x :: rest)) || !truthy (JsVal.arr (x :: rest))
      || !truthy (jsLength (JsVal.arr (x :: rest)))) = false := by
    rw [truthy_len_cons]
    rfl
  rw [if_neg (by simp [hc])]

theorem peakFromScan_some (stats bf : JsVal) (bv : ℚ) :
    peakFromScan stats (some (bf, bv))
      = if !truthy (objGet bf "geometry")
            || !strictEqStr (objGet (objGet bf "geometry") "type") "LineString" then
          none
        else
          match getLineMiddlePoint (objGet (objGet bf "geometry") "coordinates") with
          | none => none
          | some middle =>
              some ⟨middle,
                colorForMarker
                  (ratioOf (.fin bv) (.fin (statsMinQ stats)) (.fin (statsMaxQ stats))),
                markerSize (toNumber (jsOr (objGet (objGet bf "properties") "vehicles")
                  (.num (.fin 0)))),
                "marker", bv⟩ := by
  rfl

/-- Claim C1: getPeakPoint ignores features without a finite coerced value
(dropping them leaves the result unchanged), the scan selects the strict
maximum with ties resolved in favor of the first-scanned feature, the
result is null when no feature qualifies or when the winner is not a
LineString, and on the worked two-line example the descriptor carries
value 7 at the endpoint midpoint of that feature. -/
theorem getPeakPoint_spec :
    (∀ (feats : List JsVal) (stats : JsVal),
        getPeakPoint (mkFC feats) stats
          = getPeakPoint (mkFC (feats.filter (fun f => (featValue f).isSome))) stats)
    ∧ (∀ (feats : List JsVal) (bf : JsVal) (bv : ℚ), peakScan feats = some (bf, bv) →
        featValue bf = some bv
        ∧ (∀ g ∈ feats, ∀ w, featValue g = some w → w ≤ bv)
        ∧ ∃ pre post, feats = pre ++ bf :: post
            ∧ (∀ g ∈ pre, ∀ w, featValue g = some w → w < bv))
    ∧ (∀ (feats : List JsVal) (stats : JsVal), (∀ f ∈ feats, featValue f = none) →
        getPeakPoint (mkFC feats) stats = none)
    ∧ (∀ (feats : List JsVal) (stats : JsVal) (bf : JsVal) (bv : ℚ),
        peakScan feats = some (bf, bv) →
        strictEqStr (objGet (objGet bf "geometry") "type") "LineString" = false →
        getPeakPoint (mkFC feats) stats = none)
    ∧ (getPeakPoint fcPeakEx statsEx).map (fun p => (p.value, p.position))
        = some (7, (.fin 5, .fin 1)) := by
  refine ⟨?_, ?_, ?_, ?_, ?_⟩
  · intro feats stats
    cases feats with
    | nil => rfl
    | cons x rest =>
        cases hfil : (x :: rest).filter (fun f => (featValue f).isSome) with
        | nil =>
            have hnone : peakScan (x :: rest) = none := by
              unfold peakScan
              rw [peakScan_filter, hfil]
              rfl
            rw [getPeakPoint_mkFC_cons, hnone, getPeakPoint_mkFC_nil]
            rfl
        | cons y ys =>
            have hs : peakScan (x :: rest) = peakScan (y :: ys) := by
              unfold peakScan
              rw [peakScan_filter, hfil]
            rw [getPeakPoint_mkFC_cons x rest stats, getPeakPoint_mkFC_cons y ys stats, hs]
  · intro feats bf bv h
    have hub := peakScan_foldl_ub feats none bf bv h
    rcases peakScan_foldl_mem feats none bf bv h with habs | ⟨hfv, pre, post, hsplit, hpre, _⟩
    · exact Option.noConfusion habs
    · exact ⟨hfv, hub.1, pre, post, hsplit, hpre⟩
  · intro feats stats hall
    cases feats with
    | nil => exact getPeakPoint_mkFC_nil stats
    | cons x rest =>
        have hfil : (x :: rest).filter (fun f => (featValue f).isSome) = [] := by
          apply List.filter_eq_nil_iff.mpr
          intro a ha
          simp [hall a ha]
        have hnone : peakScan (x :: rest) = none := by
          unfold peakScan
          rw [peakScan_filter, hfil]
          rfl
        rw [getPeakPoint_mkFC_cons, hnone]
        rfl
  · intro feats stats bf bv hscan htype
    cases feats with
    | nil => exact getPeakPoint_mkFC_nil stats
    | cons x rest =>
        rw [getPeakPoint_mkFC_cons, hscan, peakFromScan_some]
        rw [if_pos (by simp [htype])]
  · have hf1 : featValue (lineFeat 3 [(0, 1), (2, 3)]) = some 3 := by
      simp [featValue, lineFeat, objGet, truthy, toNumber, List.find?]
    have hf2 : featValue (lineFeat 7 [(4, 0), (6, 2)]) = some 7 := by
      simp [featValue, lineFeat, objGet, truthy, toNumber, List.find?]
    have hscan : peakScan [lineFeat 3 [(0, 1), (2, 3)], lineFeat 7 [(4, 0), (6, 2)]]
        = some (lineFeat 7 [(4, 0), (6, 2)], 7) := by
      simp [peakScan, peakStep, hf1, hf2, show (3 : ℚ) < 7 by norm_num]
    have hdiv : ∀ a : ℚ, jsNumDiv (.fin a) (.fin 2) = .fin (a / 2) :=
      fun a => jsNumDiv_fin a 2 two_ne_zero
    have hmid2 : getLineMiddlePoint (.arr ([(4, 0), (6, 2)].map pairVal))
        = some (.fin 5, .fin 1) := by
      simp [getLineMiddlePoint, pairVal, jsIndex, jsAddAsNum, toNumber, jsNumAdd_fin, hdiv]
      norm_num
    have hgeom : objGet (lineFeat 7 [(4, 0), (6, 2)]) "geometry"
        = .obj [("type", .str "LineString"),
                ("coordinates", .arr ([(4, 0), (6, 2)].map pairVal))] := by
      simp [lineFeat, objGet, List.find?]
    have hcoords : objGet (.obj [("type", .str "LineString"),
        ("coordinates", .arr ([(4, 0), (6, 2)].map pairVal))]) "coordinates"
        = .arr ([(4, 0), (6, 2)].map pairVal) := by
      simp [objGet, List.find?]
    rw [show fcPeakEx
        = mkFC [lineFeat 3 [(0, 1), (2, 3)], lineFeat 7 [(4, 0), (6, 2)]] from rfl,
      getPeakPoint_mkFC_cons, hscan, peakFromScan_some, hgeom]
    rw [if_neg ?hcond]
    case hcond => simp [objGet, strictEqStr, truthy, List.find?]
    rw [hcoords, hmid2]
    rfl

/-- Witness for C1: a features list holding one null entry has no finite
values, so the peak is null. -/
theorem getPeakPoint_spec_witness :
    (∀ f ∈ [JsVal.null], featValue f = none)
    ∧ getPeakPoint (mkFC [JsVal.null]) statsEx = none := by
  have hall : ∀ f ∈ [JsVal.null], featValue f = none := by
    intro f hf
    simp only [List.mem_singleton] at hf
    subst hf
    rfl
  exact ⟨hall, getPeakPoint_spec.2.2.1 [JsVal.null] statsEx hall⟩

/- ===== C6 ===== -/

/-- Claim C6: when the time-range bounds are not both finite numbers,
getSliderEpoch is null and any refresh is a no-op: it neither raises nor
fetches and returns the render state unchanged. -/
theorem timeRange_noop_spec :
    ∀ (env : TimelineEnv) (response : JsVal) (st : RenderState),
      ¬(isFiniteNumV env.timeMin = true ∧ isFiniteNumV env.timeMax = true) →
      getSliderEpoch env.timeMin env.timeMax env.sliderValue env.sliderMax = none
      ∧ loadTrafficForCurrentSlider env response st = .ok (st, none) := by
  intro env resp st h
  have hep : getSliderEpoch env.timeMin env.timeMax env.sliderValue env.sliderMax = none := by
    unfold getSliderEpoch
    rw [if_neg (by simpa [Bool.and_eq_true] using h)]
  refine ⟨hep, ?_⟩
  unfold loadTrafficForCurrentSlider
  by_cases hT : env.chkTraffic = false
  · rw [if_pos hT]
  · rw [if_neg hT, hep]

/-- Witness for C6: with null bounds, the refresh over a null payload is
still a harmless no-op. -/
theorem timeRange_noop_spec_witness :
    ¬(isFiniteNumV envNoTime.timeMin = true ∧ isFiniteNumV envNoTime.timeMax = true)
    ∧ getSliderEpoch envNoTime.timeMin envNoTime.timeMax
        envNoTime.sliderValue envNoTime.sliderMax = none
    ∧ loadTrafficForCurrentSlider envNoTime .null stEx = .ok (stEx, none) := by
  have h : ¬(isFiniteNumV envNoTime.timeMin = true
      ∧ isFiniteNumV envNoTime.timeMax = true) := by
    simp [envNoTime, isFiniteNumV]
  exact ⟨h, (timeRange_noop_spec envNoTime .null stEx h).1,
    (timeRange_noop_spec envNoTime .null stEx h).2⟩

/- ===== C5 ===== -/

theorem statsMinQ_defaulted (stats : JsVal) :
    statsMinQ (statsDefaulted stats) = statsMinQ stats := by
  have h1 : objGet (statsDefaulted stats) "min" = .num (.fin (statsMinQ stats)) := by
    simp [statsDefaulted, objGet, List.find?]
  show (if truthy (statsDefaulted stats)
      && isFiniteNumV (objGet (statsDefaulted stats) "min") then
    match objGet (statsDefaulted stats) "min" with
    | .num (.fin q) => q
    | _ => 0
  else 0) = statsMinQ stats
  rw [h1]
  simp [statsDefaulted, truthy, isFiniteNumV]

theorem statsMaxQ_defaulted (stats : JsVal) :
    statsMaxQ (statsDefaulted stats) = statsMaxQ stats := by
  have h1 : objGet (statsDefaulted stats) "max" = .num (.fin (statsMaxQ stats)) := by
    simp [statsDefaulted, objGet, List.find?]
  show (if truthy (statsDefaulted stats)
      && isFiniteNumV (objGet (statsDefaulted stats) "max") then
    match objGet (statsDefaulted stats) "max" with
    | .num (.fin q) => q
    | _ => 1
  else 1) = statsMaxQ stats
  rw [h1]
  simp [statsDefaulted, truthy, isFiniteNumV]

theorem toFixed2_zero : toFixed2 0 = "0.00" := by
  have h : ⌊|(0 : ℚ)| * 100 + 1 / 2⌋ = (0 : ℤ) := by norm_num
  unfold toFixed2
  rw [if_neg (by norm_num), h]
  rfl

theorem toFixed2_ten : toFixed2 10 = "10.00" := by
  have h : ⌊|(10 : ℚ)| * 100 + 1 / 2⌋ = (1000 : ℤ) := by norm_num
  unfold toFixed2
  rw [if_neg (by norm_num), h]
  rfl

/-- Claim C5: during a refresh that fetched, the stats object defaults to
min 0 and max 1 when the response carries no truthy stats, the peak
computation sees exactly the per-member finite defaults, and each legend
label is the member to two decimals when it is a finite number and the
placeholder otherwise; the range 0 to 10 renders as 0.00 and 10.00. -/
theorem statsLegend_spec :
    (∀ (env : TimelineEnv) (response : JsVal) (st : RenderState)
        (r : RenderState × Option FetchCall),
        loadTrafficForCurrentSlider env response st = .ok r → r.2 ≠ none →
        r.1.currentStats = jsOr (objGet response "stats") defaultStatsObj
        ∧ (truthy (objGet response "stats") = false → r.1.currentStats = defaultStatsObj)
        ∧ r.1.legendMin = (match objGet r.1.currentStats "min" with
            | .num (.fin q) => toFixed2 q
            | _ => "min")
        ∧ r.1.legendMax = (match objGet r.1.currentStats "max" with
            | .num (.fin q) => toFixed2 q
            | _ => "max"))
    ∧ (∀ (fc stats : JsVal), getPeakPoint fc stats = getPeakPoint fc (statsDefaulted stats))
    ∧ toFixed2 0 = "0.00" ∧ toFixed2 10 = "10.00" := by
  refine ⟨?_, ?_, toFixed2_zero, toFixed2_ten⟩
  · intro env resp st r hok hf
    simp only [loadTrafficForCurrentSlider] at hok
    split at hok
    · injection hok with h
      subst h
      exact absurd rfl hf
    · split at hok
      · injection hok with h
        subst h
        exact absurd rfl hf
      · split at hok
        · exact Except.noConfusion hok
        · exact Except.noConfusion hok
        · split at hok
          · split at hok
            · exact Except.noConfusion hok
            · injection hok with h
              subst h
              exact ⟨rfl, fun ht => by simp [jsOr, ht], rfl, rfl⟩
          · injection hok with h
            subst h
            exact ⟨rfl, fun ht => by simp [jsOr, ht], rfl, rfl⟩
  · intro fc stats
    have hpfs : ∀ s, peakFromScan stats s = peakFromScan (statsDefaulted stats) s := by
      intro s
      cases s with
      | none => rfl
      | some pr =>
          obtain ⟨bf, bv⟩ := pr
          rw [peakFromScan_some, peakFromScan_some, statsMinQ_defaulted, statsMaxQ_defaulted]
    unfold getPeakPoint
    split
    · rfl
    · split
      · exact hpfs _
      · rfl

/- ===== C4 ===== -/

theorem isValidFC_normalize (v : JsVal) :
    isValidFC (normalizeFeatureCollection v) = true := by
  by_cases h : isValidFC v
  · simp [normalizeFeatureCollection, h]
  · simp [normalizeFeatureCollection, h, isValidFC_emptyFC]

theorem valid_parts (v : JsVal) (h : isValidFC v = true) :
    truthy v = true ∧ objGet v "features" = .arr (fcFeatures v) := by
  unfold isValidFC at h
  simp only [Bool.and_eq_true] at h
  refine ⟨h.1.1, ?_⟩
  have harr := h.2
  unfold fcFeatures
  cases hg : objGet v "features" with
  | arr xs => rfl
  | null => rw [hg] at harr; simp [isArrayV] at harr
  | undefined => rw [hg] at harr; simp [isArrayV] at harr
  | bool b => rw [hg] at harr; simp [isArrayV] at harr
  | num x => rw [hg] at harr; simp [isArrayV] at harr
  | str s => rw [hg] at harr; simp [isArrayV] at harr
  | obj fields => rw [hg] at harr; simp [isArrayV] at harr

theorem labelOf_ok (g : JsVal) (hn : g ≠ JsVal.null) (hu : g ≠ JsVal.undefined) :
    ∃ o, labelOf g = .ok o := by
  cases g with
  | null => exact absurd rfl hn
  | undefined => exact absurd rfl hu
  | bool b => exact ⟨none, rfl⟩
  | num x => exact ⟨none, rfl⟩
  | str s =>
      simp only [labelOf]
      split
      · exact ⟨none, rfl⟩
      · split
        · exact ⟨none, rfl⟩
        · exact ⟨_, rfl⟩
  | arr xs => exact ⟨none, rfl⟩
  | obj fields =>
      simp only [labelOf]
      split
      · exact ⟨none, rfl⟩
      · split
        · exact ⟨none, rfl⟩
        · exact ⟨_, rfl⟩

theorem labelsOfList_ok (xs : List JsVal)
    (h : ∀ f ∈ xs, f ≠ JsVal.null ∧ f ≠ JsVal.undefined) :
    ∃ ls, labelsOfList xs = .ok ls := by
  induction xs with
  | nil => exact ⟨[], rfl⟩
  | cons f rest ih =>
      obtain ⟨hn, hu⟩ := h f (List.mem_cons_self f rest)
      obtain ⟨o, ho⟩ := labelOf_ok f hn hu
      obtain ⟨ls, hls⟩ := ih (fun g hg => h g (List.mem_cons_of_mem f hg))
      cases o with
      | some l =>
          refine ⟨l :: ls, ?_⟩
          simp only [labelsOfList, ho, hls]
      | none =>
          refine ⟨ls, ?_⟩
          simp only [labelsOfList, ho, hls]

theorem buildValuesLabels_norm_ok (resp : JsVal)
    (h : ∀ f ∈ fcFeatures (normalizeFeatureCollection resp),
        f ≠ JsVal.null ∧ f ≠ JsVal.undefined) :
    ∃ ls, buildValuesLabels (normalizeFeatureCollection resp) = .ok ls := by
  obtain ⟨htr, hfeat⟩ := valid_parts _ (isValidFC_normalize resp)
  obtain ⟨ls, hls⟩ := labelsOfList_ok _ h
  refine ⟨ls, ?_⟩
  unfold buildValuesLabels
  rw [hfeat, if_neg (by simp [htr, show ∀ xs, truthy (JsVal.arr xs) = true from fun _ => rfl])]
  exact hls

/-- Main-branch reduction of the refresh: with the traffic layer on, a
loaded epoch and a payload that is neither null nor undefined, the refresh
runs its full body. -/
theorem loadTraffic_main (env : TimelineEnv) (response : JsVal) (st : RenderState)
    (e : ℤ) (hT : ¬env.chkTraffic = false)
    (hep : getSliderEpoch env.timeMin env.timeMax env.sliderValue env.sliderMax = some e)
    (h1 : response ≠ JsVal.null) (h2 : response ≠ JsVal.undefined) :
    loadTrafficForCurrentSlider env response st
      = (let call : FetchCall :=
           ⟨(getWindowFromEpoch e 5).1, (getWindowFromEpoch e 5).2,
             env.vehClass, env.metric⟩
         let fc := normalizeFeatureCollection response
         let cs := jsOr (objGet response "stats") defaultStatsObj
         let lmin := match objGet cs "min" with
           | JsVal.num (JsNum.fin q) => toFixed2 q
           | _ => "min"
         let lmax := match objGet cs "max" with
           | JsVal.num (JsNum.fin q) => toFixed2 q
           | _ => "max"
         let peakList := match getPeakPoint fc cs with
           | some p => [p]
           | none => []
         if env.chkValues then
           match buildValuesLabels fc with
           | .error err => .error err
           | .ok labels => .ok (⟨cs, fc, peakList, labels, lmin, lmax⟩, some call)
         else .ok (⟨cs, fc, peakList, [], lmin, lmax⟩, some call)) := by
  unfold loadTrafficForCurrentSlider
  rw [if_neg hT, hep]
  cases response with
  | null => exact absurd rfl h1
  | undefined => exact absurd rfl h2
  | bool b => rfl
  | num x => rfl
  | str s => rfl
  | arr xs => rfl
  | obj fields => rfl

/-- Amended claim C4: the refresh path normalizes any value that is not a
well-formed FeatureCollection to an empty FeatureCollection and pushes the
normalized collection to the traffic layer; the refresh step does not
throw for any JSON payload other than null, provided that when label
display is enabled no entry of the features array is itself null. -/
theorem refresh_safety_amended :
    (∀ v, isValidFC v = false → normalizeFeatureCollection v = emptyFC)
    ∧ (∀ (env : TimelineEnv) (response : JsVal) (st : RenderState),
        response ≠ JsVal.null → response ≠ JsVal.undefined →
        (env.chkValues = false
          ∨ ∀ f ∈ fcFeatures (normalizeFeatureCollection response),
              f ≠ JsVal.null ∧ f ≠ JsVal.undefined) →
        ∃ r, loadTrafficForCurrentSlider env response st = .ok r
          ∧ (r.2 ≠ none → r.1.trafficData = normalizeFeatureCollection response)) := by
  constructor
  · intro v h
    simp [normalizeFeatureCollection, h]
  · intro env resp st h1 h2 h3
    by_cases hT : env.chkTraffic = false
    · refine ⟨(st, none), ?_, fun hf => absurd rfl hf⟩
      unfold loadTrafficForCurrentSlider
      rw [if_pos hT]
    · cases hep : getSliderEpoch env.timeMin env.timeMax env.sliderValue env.sliderMax with
      | none =>
          refine ⟨(st, none), ?_, fun hf => absurd rfl hf⟩
          unfold loadTrafficForCurrentSlider
          rw [if_neg hT, hep]
      | some e =>
          rw [loadTraffic_main env resp st e hT hep h1 h2]
          by_cases hV : env.chkValues = true
          · have hnn : ∀ f ∈ fcFeatures (normalizeFeatureCollection resp),
                f ≠ JsVal.null ∧ f ≠ JsVal.undefined := by
              rcases h3 with h3 | h3
              · rw [h3] at hV; exact absurd hV (by simp)
              · exact h3
            obtain ⟨ls, hls⟩ := buildValuesLabels_norm_ok resp hnn
            simp only [hV, if_true, hls]
            exact ⟨_, rfl, fun _ => rfl⟩
          · simp only [Bool.not_eq_true] at hV
            simp only [hV, Bool.false_eq_true, if_false]
            exact ⟨_, rfl, fun _ => rfl⟩

/-- Counterexample to C4 as stated: with the traffic layer on and a loaded
time range, a refresh over the JSON payload null raises a TypeError at the
stats read, instead of surviving every payload shape. -/
theorem refresh_null_payload_throws :
    loadTrafficForCurrentSlider envEx .null stEx = .error .typeError := by
  have hepEx : getSliderEpoch envEx.timeMin envEx.timeMax
      envEx.sliderValue envEx.sliderMax = some 1500 := by
    show getSliderEpoch (.num (.fin 1000)) (.num (.fin 2000)) 50 100 = some 1500
    unfold getSliderEpoch
    rw [if_pos (show (isFiniteNumV (JsVal.num (JsNum.fin 1000))
      && isFiniteNumV (JsVal.num (JsNum.fin 2000))) = true from rfl)]
    norm_num [finValD]
  unfold loadTrafficForCurrentSlider
  rw [if_neg (by simp [envEx]), hepEx]

/-- Witness for the amended C4: a payload that is a bare number is
normalized to the empty FeatureCollection and refreshed without an
exception. -/
theorem refresh_safety_amended_witness :
    (isValidFC (.num (.fin 5)) = false
      ∧ normalizeFeatureCollection (.num (.fin 5)) = emptyFC)
    ∧ (JsVal.num (.fin 5) ≠ JsVal.null ∧ JsVal.num (.fin 5) ≠ JsVal.undefined
      ∧ envEx.chkValues = false)
    ∧ ∃ r, loadTrafficForCurrentSlider envEx (.num (.fin 5)) stEx = .ok r
        ∧ (r.2 ≠ none → r.1.trafficData = normalizeFeatureCollection (.num (.fin 5))) := by
  refine ⟨⟨rfl, refresh_safety_amended.1 (.num (.fin 5)) rfl⟩,
    ⟨fun h => JsVal.noConfusion h, fun h => JsVal.noConfusion h, rfl⟩, ?_⟩
  exact refresh_safety_amended.2 envEx (.num (.fin 5)) stEx
    (fun h => JsVal.noConfusion h) (fun h => JsVal.noConfusion h) (Or.inl rfl)

theorem getSliderEpoch_envEx :
    getSliderEpoch envEx.timeMin envEx.timeMax envEx.sliderValue envEx.sliderMax
      = some 1500 := by
  show getSliderEpoch (.num (.fin 1000)) (.num (.fin 2000)) 50 100 = some 1500
  unfold getSliderEpoch
  rw [if_pos (show (isFiniteNumV (JsVal.num (JsNum.fin 1000))
    && isFiniteNumV (JsVal.num (JsNum.fin 2000))) = true from rfl)]
  norm_num [finValD]

theorem loadTraffic_envEx : loadTrafficForCurrentSlider envEx respEx stEx = .ok rEx := by
  rw [loadTraffic_main envEx respEx stEx 1500 (by simp [envEx]) getSliderEpoch_envEx
      (fun h => JsVal.noConfusion h) (fun h => JsVal.noConfusion h)]
  have hstats : objGet respEx "stats" = statsEx := by
    simp [respEx, objGet, statsEx, List.find?]
  have hcs : jsOr (objGet respEx "stats") defaultStatsObj = statsEx := by
    rw [hstats]
    simp [jsOr, statsEx, truthy]
  have hfc : normalizeFeatureCollection respEx = respEx := by
    have hv : isValidFC respEx = true := by
      simp [isValidFC, respEx, truthy, objGet, strictEqStr, isArrayV, List.find?]
    simp [normalizeFeatureCollection, hv]
  have hmin : objGet statsEx "min" = .num (.fin 0) := by
    simp [statsEx, objGet, List.find?]
  have hmax : objGet statsEx "max" = .num (.fin 10) := by
    simp [statsEx, objGet, List.find?]
  have hpeak : getPeakPoint respEx statsEx = none := by
    unfold getPeakPoint
    have hfeat : objGet respEx "features" = .arr [] := by
      simp [respEx, objGet, List.find?]
    rw [hfeat, if_pos (by simp [truthy_len_nil])]
  simp only [hfc, hcs, hmin, hmax, hpeak,
    show envEx.chkValues = false from rfl, Bool.false_eq_true, if_false]
  simp only [rEx, getWindowFromEpoch]
  norm_num
  exact ⟨rfl, rfl⟩

/-- Witness for C5 on the worked example: the refresh keeps the response
stats and renders the legend as 0.00 and 10.00. -/
theorem statsLegend_spec_witness :
    (loadTrafficForCurrentSlider envEx respEx stEx = .ok rEx ∧ rEx.2 ≠ none)
    ∧ rEx.1.currentStats = jsOr (objGet respEx "stats") defaultStatsObj
    ∧ rEx.1.legendMin = "0.00" ∧ rEx.1.legendMax = "10.00" := by
  have hf : rEx.2 ≠ none := by simp [rEx]
  have h := statsLegend_spec.1 envEx respEx stEx rEx loadTraffic_envEx hf
  refine ⟨⟨loadTraffic_envEx, hf⟩, h.1, ?_, ?_⟩
  · rw [h.2.2.1]
    rw [show objGet rEx.1.currentStats "min" = JsVal.num (JsNum.fin 0) from by
      simp [rEx, statsEx, objGet, List.find?]]
    exact toFixed2_zero
  · rw [h.2.2.2]
    rw [show objGet rEx.1.currentStats "max" = JsVal.num (JsNum.fin 10) from by
      simp [rEx, statsEx, objGet, List.find?]]
    exact toFixed2_ten
